import Mathlib

/-!
# Verification of the rsvp PDF text pipeline

Shallow embedding of the PDF extraction pipeline of the `rsvp` repository:

* `src/lib/pdf/pdf-extraction-worker.ts` — the extraction worker: builds the
  full document text page by page and emits progress / completion / error
  messages;
* `src/lib/pdf/section-extractor.ts` — `extractSectionText`, slicing a page
  range out of the full text;
* `src/lib/pdf/toc-heuristics.ts` — table-of-contents discovery: structured
  outline parsing with a font-size heuristic fallback.

JavaScript strings are modelled as `List Char`; JavaScript numbers occurring
in the TOC heuristics (font heights) are modelled as exact rationals `ℚ`.
Interactions with the external pdf.js library (outline fetching, destination
resolution, page text content) are modelled as oracle fields of the document
structures, with an explicit constructor for each outcome the code
distinguishes (success, null result, thrown exception).
-/

/-- JavaScript strings, modelled as lists of characters. -/
abbrev Str := List Char

/-- Embedding of JavaScript `s.split('\n')` (split on every occurrence of the
separator; `"".split('\n') == [""]` and a trailing separator yields a trailing
empty segment, as in JavaScript). -/
def splitOnNl : Str → List Str
  | [] => [[]]
  | c :: rest =>
    if c = '\n' then [] :: splitOnNl rest
    else
      match splitOnNl rest with
      | [] => [[c]]
      | seg :: segs => (c :: seg) :: segs

/-- Embedding of JavaScript `arr.join('\n')`. -/
def joinNl (pages : List Str) : Str :=
  List.intercalate ['\n'] pages

/-- Embedding of JavaScript `Array.prototype.slice(start, end)` for integer
arguments: negative indices count from the end, indices are clamped to
`[0, length]`, and the element range `[start, end)` is returned. -/
def jsSlice {α : Type} (l : List α) (start stop : Int) : List α :=
  let len : Int := l.length
  let b := if start < 0 then max (len + start) 0 else min start len
  let e := if stop < 0 then max (len + stop) 0 else min stop len
  (l.take e.toNat).drop b.toNat

/-- Embedding of `extractSectionText` from `src/lib/pdf/section-extractor.ts`:
the whole-document fast path is checked first, then the range validation, then
split / slice / rejoin. -/
def extractSectionText (fullText : Str) (startPage endPage totalPages : Int) : Str :=
  if startPage = 1 ∧ endPage = totalPages then
    fullText
  else if startPage < 1 ∨ endPage > totalPages ∨ startPage > endPage ∨ totalPages < 1 then
    []
  else
    let pages := splitOnNl fullText
    let sectionPages := jsSlice pages (startPage - 1) endPage
    joinNl sectionPages

/-- Embedding of the full-text accumulation loop of the extraction worker
(`src/lib/pdf/pdf-extraction-worker.ts`, `fullText += pageText + '\n'` for each
page in order): the full text given the per-page texts. -/
def buildFullText (pageTexts : List Str) : Str :=
  pageTexts.foldl (fun acc t => acc ++ t ++ ['\n']) []

/-- A table-of-contents entry (`TOCItem` in `src/types/pdf-worker.ts`):
title, 0-indexed page number, and hierarchy level. -/
structure TOCItem where
  title : Str
  pageIndex : Nat
  level : Nat
deriving DecidableEq, Repr

/-- Outcome of resolving one outline node's navigation destination through
pdf.js (`getDestination` / `getPageIndex` in `parseOutlineToTOC`):
`resolved i` — the chain of calls produced page index `i`;
`unresolved` — the node has a destination but the lookup produced no usable
page reference (`dest` null or `dest[0]` falsy), so `pageIndex` keeps its
initial value 0;
`failure` — one of the resolution calls threw. -/
inductive DestOutcome where
  | resolved (pageIndex : Nat)
  | unresolved
  | failure
deriving DecidableEq, Repr

/-- A node of the structured outline returned by `pdf.getOutline()`:
`title` (the empty string models a falsy JavaScript title), the destination
resolution outcome (`none` models a node with no `dest` field), and child
nodes. -/
inductive OutlineNode where
  | node (title : Str) (dest : Option DestOutcome) (children : List OutlineNode)

/-- Title of an outline node. -/
def OutlineNode.title : OutlineNode → Str
  | .node t _ _ => t

/-- Destination oracle of an outline node. -/
def OutlineNode.dest : OutlineNode → Option DestOutcome
  | .node _ d _ => d

/-- Children of an outline node. -/
def OutlineNode.children : OutlineNode → List OutlineNode
  | .node _ _ c => c

/-- The `pageIndex` computation of `parseOutlineToTOC` for one node: `some i`
is the value of the local `pageIndex` variable after the destination handling,
`none` means the handling threw (so the enclosing per-node `catch` fires). -/
def resolveDest : Option DestOutcome → Option Nat
  | none => some 0
  | some (.resolved i) => some i
  | some .unresolved => some 0
  | some .failure => none

/-- Embedding of `parseOutlineToTOC` from `src/lib/pdf/toc-heuristics.ts`:
for each node, resolve its destination, push an item (with falsy titles
replaced by `"Untitled"`), then recursively process the children at
`level + 1`; a throw during resolution is caught per node, skipping that
node's push and its children, and the loop continues with the next node. -/
def parseOutlineToTOC : List OutlineNode → Nat → List TOCItem
  | [], _ => []
  | .node t d children :: rest, level =>
    (match resolveDest d with
     | none => []
     | some pageIndex =>
       { title := if t = [] then "Untitled".toList else t, pageIndex := pageIndex,
         level := level } :: parseOutlineToTOC children (level + 1)) ++
      parseOutlineToTOC rest level

/-- A text item of a page's text content (`item.height`, `item.str` in
`detectTOCFromFonts`); `height` is the font height as an exact rational. -/
structure TextItem where
  height : ℚ
  str : Str

/-- Embedding of JavaScript `String.prototype.trim()` on the `List Char`
string model. -/
def jsTrim (s : Str) : Str :=
  ((s.dropWhile Char.isWhitespace).reverse.dropWhile Char.isWhitespace).reverse

/-- Embedding of JavaScript `String.prototype.toUpperCase()` (ASCII letters;
sufficient for the comparisons the heuristics make). -/
def jsToUpper (s : Str) : Str :=
  s.map Char.toUpper

/-- Embedding of the regular-expression test `/[a-zA-Z0-9]/.test(text)`. -/
def hasAlnum (s : Str) : Bool :=
  s.any Char.isAlphanum

/-- The hierarchy-level estimate of `detectTOCFromFonts`: level 0 when the
font size is at least twice the page average, 1 at one and a half times,
else 2. -/
def headingLevel (fontSize avg : ℚ) : Nat :=
  if fontSize / avg ≥ 2 then 0 else if fontSize / avg ≥ 1.5 then 1 else 2

/-- Embedding of the inner item loop of `detectTOCFromFonts`: walk the page's
text items in order and push a TOC item for each one passing the four
heuristic filters (font size above 1.3 times the page average, trimmed length
in `[3, 100]`, at least one alphanumeric character, not equal to its own
upper-casing). -/
def scanItems (avg : ℚ) (pageNum : Nat) (items : List TextItem) : List TOCItem :=
  items.foldl
    (fun acc item =>
      let fontSize := item.height
      let text := jsTrim item.str
      if fontSize > avg * 1.3 ∧ 3 ≤ text.length ∧ text.length ≤ 100 ∧
          hasAlnum text = true ∧ text ≠ jsToUpper text then
        acc ++ [{ title := text, pageIndex := pageNum - 1,
                  level := headingLevel fontSize avg }]
      else acc)
    []

/-- The document handle for TOC discovery, as an oracle for the pdf.js calls
the heuristics make: `outlineRes` is the outcome of `pdf.getOutline()`
(`error` models a throw, `ok none` a null outline), `numPages` is
`pdf.numPages`, and `pageItems n` is the outcome of
`getPage(n).getTextContent()` (`none` models a throw on that page). -/
structure TOCDoc where
  outlineRes : Except Str (Option (List OutlineNode))
  numPages : Nat
  pageItems : Nat → Option (List TextItem)

/-- Embedding of one iteration of the page loop of `detectTOCFromFonts`: fetch
the page's text content (a throw is caught and the page skipped), compute the
average of the positive font heights (skip the page when there are none), then
scan the items. -/
def scanPage (doc : TOCDoc) (pageNum : Nat) : List TOCItem :=
  match doc.pageItems pageNum with
  | none => []
  | some items =>
    let fontSizes := (items.map TextItem.height).filter (fun size => size > 0)
    if fontSizes.length = 0 then []
    else
      let avgFontSize := fontSizes.foldl (· + ·) 0 / (fontSizes.length : ℚ)
      scanItems avgFontSize pageNum items

/-- The deduplication step of `detectTOCFromFonts`
(`items.filter((item, index, self) => index === self.findIndex(...))`):
keep exactly the first occurrence of each `(pageIndex, title)` pair. -/
def dedupeByPageTitle (items : List TOCItem) : List TOCItem :=
  (items.enum.filter
    (fun p =>
      p.1 = items.findIdx (fun t => t.pageIndex == p.2.pageIndex && t.title == p.2.title))).map
    (fun p => p.2)

/-- Embedding of `detectTOCFromFonts` from `src/lib/pdf/toc-heuristics.ts`:
scan the first `min 20 numPages` pages, deduplicate by page and title, and
sort by page order (JavaScript `sort((a, b) => a.pageIndex - b.pageIndex)`,
modelled by the stable `mergeSort`). -/
def detectTOCFromFonts (doc : TOCDoc) : List TOCItem :=
  let maxPagesToScan := min 20 doc.numPages
  let items := ((List.range maxPagesToScan).map (fun i => scanPage doc (i + 1))).flatten
  let uniqueItems := dedupeByPageTitle items
  uniqueItems.mergeSort (fun a b => a.pageIndex ≤ b.pageIndex)

/-- The body of `extractTableOfContents` (inside its `try`): fetch the outline
(`Except.error` models a throw), parse it when present and non-empty,
otherwise fall back to the font heuristics. -/
def extractTOCBody (doc : TOCDoc) : Except Str (List TOCItem) := do
  let outline ← doc.outlineRes
  match outline with
  | some nodes =>
    if nodes.length > 0 then pure (parseOutlineToTOC nodes 0)
    else pure (detectTOCFromFonts doc)
  | none => pure (detectTOCFromFonts doc)

/-- Embedding of `extractTableOfContents` from `src/lib/pdf/toc-heuristics.ts`:
the body wrapped in the `try`/`catch` that turns any failure into an empty
result. -/
def extractTableOfContents (doc : TOCDoc) : List TOCItem :=
  match extractTOCBody doc with
  | .ok items => items
  | .error _ => []

/-- A message posted by the extraction worker
(`WorkerResponse` in `src/types/pdf-worker.ts`): a progress report, the
completion result (carrying the accumulated full text and the page count), or
an error report. -/
inductive WorkerMsg where
  | progress (percent : ℚ)
  | complete (text : Str) (pageCount : Nat)
  | error (msg : Str)
deriving DecidableEq, Repr

/-- Whether a worker message is a progress report. -/
def WorkerMsg.isProgress : WorkerMsg → Bool
  | .progress _ => true
  | _ => false

/-- Whether a worker message is terminal (completion result or error). -/
def WorkerMsg.isTerminal : WorkerMsg → Bool
  | .complete _ _ => true
  | .error _ => true
  | .progress _ => false

/-- The percent payload of a progress message. -/
def WorkerMsg.percentOf : WorkerMsg → Option ℚ
  | .progress p => some p
  | _ => none

/-- The percent values of the progress messages of a message list, in order. -/
def percents (msgs : List WorkerMsg) : List ℚ :=
  msgs.filterMap WorkerMsg.percentOf

/-- Embedding of the page loop of the extract handler in
`src/lib/pdf/pdf-extraction-worker.ts`: each page either yields its text
(`Except.ok`) or throws (`Except.error`, modelling a `getPage` /
`getTextContent` failure). For every page processed, the text plus a newline
is appended to the accumulator and a progress message with
`pageNum / pageCount * 100` is posted; a throw aborts the loop and posts a
single error message (the `catch` of the handler); after the last page the
completion result is posted. `k` is the number of pages already processed and
`pageCount` the total page count. -/
def extractLoop : List (Except Str Str) → Nat → Nat → Str → List WorkerMsg
  | [], _, pageCount, acc => [.complete acc pageCount]
  | .error e :: _, _, _, _ => [.error e]
  | .ok pageText :: rest, k, pageCount, acc =>
    .progress (((k : ℚ) + 1) / (pageCount : ℚ) * 100) ::
      extractLoop rest (k + 1) pageCount (acc ++ pageText ++ ['\n'])

/-- Embedding of the extract handler: loading the document either throws
(`Except.error`, posting a single error message) or yields the list of
per-page extraction outcomes, which the page loop processes. -/
def extractMessages (loadRes : Except Str (List (Except Str Str))) : List WorkerMsg :=
  match loadRes with
  | .error e => [.error e]
  | .ok pages => extractLoop pages 0 pages.length []

/-- Modelled from the spec (§4.3, heuristic filters), for comparison with the
code's item loop: a text item is flagged as a heading candidate iff all four
filters hold — its height exceeds 1.3 times the page's average height, its
trimmed text length is between 3 and 100 characters inclusive, the text
contains at least one alphanumeric character, and the text is not entirely
upper-case (not equal to its own upper-casing). -/
def specHeadingCandidate (avg : ℚ) (item : TextItem) : Prop :=
  item.height > avg * 1.3 ∧
    3 ≤ (jsTrim item.str).length ∧ (jsTrim item.str).length ≤ 100 ∧
    hasAlnum (jsTrim item.str) = true ∧ jsTrim item.str ≠ jsToUpper (jsTrim item.str)

instance (avg : ℚ) (item : TextItem) : Decidable (specHeadingCandidate avg item) := by
  unfold specHeadingCandidate
  infer_instance

theorem splitOnNl_ne_nil (s : Str) : splitOnNl s ≠ [] := by
  induction s with
  | nil => simp [splitOnNl]
  | cons c rest ih =>
    rw [splitOnNl]
    split
    · simp
    · match h : splitOnNl rest with
      | [] => simp
      | seg :: segs => simp

theorem splitOnNl_append_nl (p s : Str) (hp : '\n' ∉ p) :
    splitOnNl (p ++ '\n' :: s) = p :: splitOnNl s := by
  induction p with
  | nil => simp [splitOnNl]
  | cons c rest ih =>
    have hc : c ≠ '\n' := by
      intro h
      exact hp (h ▸ List.mem_cons_self c rest)
    have hrest : '\n' ∉ rest := fun h => hp (List.mem_cons_of_mem c h)
    rw [List.cons_append, splitOnNl, if_neg hc, ih hrest]

theorem buildFullText_cons (p : Str) (ps : List Str) :
    buildFullText (p :: ps) = p ++ '\n' :: buildFullText ps := by
  have haux : ∀ (l : List Str) (a : Str),
      l.foldl (fun acc t => acc ++ t ++ ['\n']) a =
        a ++ l.foldl (fun acc t => acc ++ t ++ ['\n']) [] := by
    intro l
    induction l with
    | nil => simp
    | cons x xs ih =>
      intro a
      rw [List.foldl_cons, List.foldl_cons, ih (a ++ x ++ ['\n']), ih ([] ++ x ++ ['\n'])]
      simp
  unfold buildFullText
  rw [List.foldl_cons, haux ps ([] ++ p ++ ['\n'])]
  simp

/-- C5: for every string `fullText` and every integer `totalPages ≥ 1`,
`slice(fullText, 1, totalPages, totalPages)` returns `fullText` unchanged
(the whole-document fast path). -/
theorem slice_fullRange_id (fullText : Str) (totalPages : Int) (h : 1 ≤ totalPages) :
    extractSectionText fullText 1 totalPages totalPages = fullText := by
  simp [extractSectionText]

/-- Witness for `slice_fullRange_id` at `fullText = "a\nb\nc"`, `totalPages = 3`. -/
theorem slice_fullRange_id_witness :
    (1 : Int) ≤ 3 ∧ extractSectionText "a\nb\nc".toList 1 3 3 = "a\nb\nc".toList :=
  ⟨by decide, slice_fullRange_id "a\nb\nc".toList 3 (by decide)⟩

/-- C4, counterexample: at `slice("x", 1, 0, 0)` the range is invalid
(`startPage > endPage` and `totalPages < 1`), yet the fast path
(`startPage == 1 && endPage == totalPages`) runs before validation and returns
`"x"`, not the empty string the claim requires. -/
theorem slice_invalid_cex :
    ((1 : Int) > 0 ∨ (0 : Int) < 1) ∧ extractSectionText ['x'] 1 0 0 = ['x'] ∧
      extractSectionText ['x'] 1 0 0 ≠ [] := by
  refine ⟨Or.inl (by decide), by decide, by decide⟩

/-- C4, amended: `slice` returns the empty string for any of `startPage < 1`,
`endPage > totalPages`, `startPage > endPage`, `totalPages < 1` — except when
`startPage = 1` and `endPage = totalPages`, in which case the fast path
returns `fullText` before validation runs. -/
theorem slice_invalid_empty (fullText : Str) (startPage endPage totalPages : Int)
    (h : startPage < 1 ∨ endPage > totalPages ∨ startPage > endPage ∨ totalPages < 1)
    (hfp : ¬(startPage = 1 ∧ endPage = totalPages)) :
    extractSectionText fullText startPage endPage totalPages = [] := by
  unfold extractSectionText
  rw [if_neg hfp, if_pos h]

/-- Witness for `slice_invalid_empty` at `slice("x", 2, 1, 0)`. -/
theorem slice_invalid_empty_witness :
    ((2 : Int) < 1 ∨ (1 : Int) > 0 ∨ (2 : Int) > 1 ∨ (0 : Int) < 1) ∧
      ¬((2 : Int) = 1 ∧ (1 : Int) = 0) ∧ extractSectionText ['x'] 2 1 0 = [] :=
  ⟨by decide, by decide, slice_invalid_empty ['x'] 2 1 0 (by decide) (by decide)⟩

/-- C6, counterexample: the in-range request `slice("a\nb\nc", 1, 2, 2)`
(`1 ≤ startPage ≤ endPage ≤ totalPages`) hits the fast path and returns the
whole string `"a\nb\nc"`, not the split-slice-rejoin result `"a\nb"` the claim
specifies. -/
theorem slice_inRange_cex :
    ((1 : Int) ≤ 1 ∧ (1 : Int) ≤ 2 ∧ (2 : Int) ≤ 2) ∧
      extractSectionText "a\nb\nc".toList 1 2 2 ≠
        joinNl (jsSlice (splitOnNl "a\nb\nc".toList) (1 - 1) 2) := by
  refine ⟨by decide, by decide⟩

/-- C6, amended: for every in-range request with
`1 ≤ startPage ≤ endPage ≤ totalPages` other than the whole-document fast path
(`startPage = 1` and `endPage = totalPages`, which returns `fullText`
unchanged), `slice` splits on the newline separator, takes the 0-indexed
sub-range `[startPage - 1, endPage)` and rejoins with the same separator; in
particular `slice("Intro\nBody one\nBody two", 2, 3, 3)` returns
`"Body one\nBody two"`. -/
theorem slice_inRange_splits (fullText : Str) (startPage endPage totalPages : Int)
    (h1 : 1 ≤ startPage) (h2 : startPage ≤ endPage) (h3 : endPage ≤ totalPages)
    (hfp : ¬(startPage = 1 ∧ endPage = totalPages)) :
    extractSectionText fullText startPage endPage totalPages =
        joinNl (jsSlice (splitOnNl fullText) (startPage - 1) endPage) ∧
      extractSectionText "Intro\nBody one\nBody two".toList 2 3 3 =
        "Body one\nBody two".toList := by
  constructor
  · unfold extractSectionText
    rw [if_neg hfp, if_neg (by omega)]
  · decide

/-- Witness for `slice_inRange_splits` at `slice("Intro\nBody one\nBody two", 2, 3, 3)`. -/
theorem slice_inRange_splits_witness :
    (extractSectionText "Intro\nBody one\nBody two".toList 2 3 3 =
        joinNl (jsSlice (splitOnNl "Intro\nBody one\nBody two".toList) (2 - 1) 3) ∧
      extractSectionText "Intro\nBody one\nBody two".toList 2 3 3 =
        "Body one\nBody two".toList) :=
  slice_inRange_splits "Intro\nBody one\nBody two".toList 2 3 3 (by decide) (by decide)
    (by decide) (by decide)

/-- C1, counterexample: a successfully extracted one-page document whose page
text is `"a"` (which does not contain the separator) produces
`fullText = "a\n"`, and splitting it on the newline separator yields two
segments `["a", ""]`, not the `pageCount = 1` segments the claim requires. -/
theorem fullText_segments_cex :
    ('\n' ∉ (['a'] : Str)) ∧ splitOnNl (buildFullText [['a']]) = [['a'], []] ∧
      (splitOnNl (buildFullText [['a']])).length ≠ 1 := by
  refine ⟨by decide, by decide, by decide⟩

/-- C1, amended: for every successfully extracted document, `fullText` is each
page's text followed by a single newline character (a trailing separator after
every page, including the last), so that splitting `fullText` on the newline
separator yields exactly `pageCount + 1` segments (absent pages whose own text
contains the separator): segment `i` holds the text of page `i + 1` for
`i < pageCount`, and the final segment is empty. -/
theorem fullText_segments (pageTexts : List Str) (h : ∀ p ∈ pageTexts, '\n' ∉ p) :
    splitOnNl (buildFullText pageTexts) = pageTexts ++ [[]] := by
  induction pageTexts with
  | nil => simp [buildFullText, splitOnNl]
  | cons p ps ih =>
    rw [buildFullText_cons, splitOnNl_append_nl p _ (h p (List.mem_cons_self p ps)),
      ih (fun q hq => h q (List.mem_cons_of_mem p hq))]
    simp

/-- Witness for `fullText_segments` at the three-page document
`["Intro", "Body one", "Body two"]`. -/
theorem fullText_segments_witness :
    splitOnNl (buildFullText ["Intro".toList, "Body one".toList, "Body two".toList]) =
      ["Intro".toList, "Body one".toList, "Body two".toList] ++ [[]] :=
  fullText_segments _ (by decide)

theorem parseOutlineToTOC_append (xs ys : List OutlineNode) (level : Nat) :
    parseOutlineToTOC (xs ++ ys) level =
      parseOutlineToTOC xs level ++ parseOutlineToTOC ys level := by
  induction xs with
  | nil => simp [parseOutlineToTOC]
  | cons n rest ih =>
    match n with
    | .node t d children =>
      rw [List.cons_append, parseOutlineToTOC, parseOutlineToTOC, ih, List.append_assoc]

/-- C2, counterexample: a structured outline with one resolvable node `"A"`
(page 1) and one node `"B"` whose destination resolution throws produces only
the entry for `"A"` — the failing node is dropped by the per-node `catch`
instead of being emitted with `pageIndex = 0` as the claim requires. -/
theorem outline_failure_cex :
    parseOutlineToTOC
        [.node "A".toList (some (.resolved 1)) [], .node "B".toList (some .failure) []] 0 =
      [{ title := "A".toList, pageIndex := 1, level := 0 }] := by
  simp [parseOutlineToTOC, resolveDest]

/-- C2, amended: a node whose destination lookup completes but yields no
usable page reference is still emitted with `pageIndex` defaulted to 0 and the
traversal continues; but a node whose destination resolution throws is dropped
entirely (together with its children) while every other node's entry is kept
in the original traversal order. In particular, an outline with one resolvable
node and one node with an unresolved (null) destination yields both entries,
the unresolved one with `pageIndex = 0`. -/
theorem outline_failure_skips (xs ys : List OutlineNode) (level : Nat) (n : OutlineNode)
    (hn : n.dest = some .failure) (t1 t2 : Str) (i : Nat) (h1 : t1 ≠ []) (h2 : t2 ≠ []) :
    parseOutlineToTOC (xs ++ n :: ys) level =
        parseOutlineToTOC xs level ++ parseOutlineToTOC ys level ∧
      parseOutlineToTOC [.node t1 (some (.resolved i)) [], .node t2 (some .unresolved) []]
          level =
        [{ title := t1, pageIndex := i, level := level },
          { title := t2, pageIndex := 0, level := level }] := by
  constructor
  · match n with
    | .node t d children =>
      have hd : d = some .failure := hn
      rw [parseOutlineToTOC_append, parseOutlineToTOC, hd]
      simp [resolveDest, parseOutlineToTOC]
  · simp [parseOutlineToTOC, resolveDest, if_neg h1, if_neg h2]

/-- Witness for `outline_failure_skips`: a concrete traversal with one leading
resolvable node, one throwing node, one trailing node, and the two-node
resolvable / unresolved scenario with titles `"A"`, `"B"`. -/
theorem outline_failure_skips_witness :
    parseOutlineToTOC
          ([.node "A".toList (some (.resolved 1)) []] ++
            .node "X".toList (some .failure) [] :: [.node "C".toList (some (.resolved 2)) []])
          0 =
        parseOutlineToTOC [.node "A".toList (some (.resolved 1)) []] 0 ++
          parseOutlineToTOC [.node "C".toList (some (.resolved 2)) []] 0 ∧
      parseOutlineToTOC
          [.node "A".toList (some (.resolved 3)) [], .node "B".toList (some .unresolved) []]
          0 =
        [{ title := "A".toList, pageIndex := 3, level := 0 },
          { title := "B".toList, pageIndex := 0, level := 0 }] :=
  outline_failure_skips [.node "A".toList (some (.resolved 1)) []]
    [.node "C".toList (some (.resolved 2)) []] 0 (.node "X".toList (some .failure) [])
    rfl "A".toList "B".toList 3 (by decide) (by decide)

/-- C3, counterexample: TOC discovery on a document whose structured outline
holds a node for page 5 followed by a node for page 2 returns a non-empty
entry sequence whose `pageIndex` values are `[5, 2]` — Strategy A preserves
outline order and never sorts, so the sequence is not non-decreasing. -/
theorem toc_order_cex :
    extractTableOfContents
          ⟨.ok (some [.node "A".toList (some (.resolved 5)) [],
            .node "B".toList (some (.resolved 2)) []]), 0, fun _ => none⟩ ≠
        [] ∧
      ¬ List.Pairwise (fun a b => a.pageIndex ≤ b.pageIndex)
        (extractTableOfContents
          ⟨.ok (some [.node "A".toList (some (.resolved 5)) [],
            .node "B".toList (some (.resolved 2)) []]), 0, fun _ => none⟩) := by
  have h : extractTableOfContents
      ⟨.ok (some [.node "A".toList (some (.resolved 5)) [],
        .node "B".toList (some (.resolved 2)) []]), 0, fun _ => none⟩ =
      [{ title := "A".toList, pageIndex := 5, level := 0 },
        { title := "B".toList, pageIndex := 2, level := 0 }] := by
    simp [extractTableOfContents, extractTOCBody, Bind.bind, Except.bind, Pure.pure,
      Except.pure, parseOutlineToTOC, resolveDest]
  rw [h]
  refine ⟨by decide, by decide⟩

/-- C3, amended: the entries produced by the font-size heuristic fallback
(Strategy B) have non-decreasing `pageIndex` values (the final sort by page
order guarantees it); sequences produced by structured outline resolution
(Strategy A) keep the outline traversal order instead and need not be
non-decreasing. -/
theorem toc_fonts_sorted (doc : TOCDoc) :
    List.Pairwise (fun a b => a.pageIndex ≤ b.pageIndex) (detectTOCFromFonts doc) := by
  have h := @List.sorted_mergeSort TOCItem
    (fun a b => decide (a.pageIndex ≤ b.pageIndex))
    (fun a b c hab hbc => by
      simp only [decide_eq_true_eq] at *
      omega)
    (fun a b => by
      rcases Nat.le_total a.pageIndex b.pageIndex with hle | hle <;> simp [hle])
    (dedupeByPageTitle
      (((List.range (min 20 doc.numPages)).map (fun i => scanPage doc (i + 1))).flatten))
  unfold detectTOCFromFonts
  exact h.imp (fun hab => by simpa using hab)

/-- C9: TOC discovery never throws — the result is the body's value when the
body succeeds, and the empty sequence when any failure escapes either
strategy's top-level execution. -/
theorem toc_discovery_total (doc : TOCDoc) :
    (∀ e, extractTOCBody doc = .error e → extractTableOfContents doc = []) ∧
      (∀ items, extractTOCBody doc = .ok items → extractTableOfContents doc = items) := by
  constructor
  · intro e he
    unfold extractTableOfContents
    rw [he]
  · intro items hi
    unfold extractTableOfContents
    rw [hi]

/-- Witness for `toc_discovery_total`: a document whose outline fetch throws
yields the empty sequence. -/
theorem toc_discovery_total_witness :
    extractTableOfContents ⟨.error "boom".toList, 0, fun _ => none⟩ = [] :=
  (toc_discovery_total ⟨.error "boom".toList, 0, fun _ => none⟩).1 "boom".toList rfl

theorem scanItems_eq (avg : ℚ) (pageNum : Nat) (items : List TextItem) :
    scanItems avg pageNum items =
      (items.filter fun it => decide (specHeadingCandidate avg it)).map
        (fun it => { title := jsTrim it.str, pageIndex := pageNum - 1,
                     level := headingLevel it.height avg }) := by
  suffices haux : ∀ (l : List TextItem) (acc : List TOCItem),
      l.foldl
        (fun acc item =>
          let fontSize := item.height
          let text := jsTrim item.str
          if fontSize > avg * 1.3 ∧ 3 ≤ text.length ∧ text.length ≤ 100 ∧
              hasAlnum text = true ∧ text ≠ jsToUpper text then
            acc ++ [{ title := text, pageIndex := pageNum - 1,
                      level := headingLevel fontSize avg }]
          else acc)
        acc =
        acc ++ (l.filter fun it => decide (specHeadingCandidate avg it)).map
          (fun it => { title := jsTrim it.str, pageIndex := pageNum - 1,
                       level := headingLevel it.height avg }) by
    simpa using haux items []
  intro l
  induction l with
  | nil =>
    intro acc
    simp
  | cons x xs ih =>
    intro acc
    by_cases hx : specHeadingCandidate avg x
    · have hd : decide (specHeadingCandidate avg x) = true := decide_eq_true hx
      obtain ⟨h1, h2, h3, h4, h5⟩ := hx
      simp only [List.foldl_cons, List.filter_cons, hd, if_true, List.map_cons]
      rw [if_pos ⟨h1, h2, h3, h4, h5⟩, ih]
      simp
    · have hd : decide (specHeadingCandidate avg x) = false := decide_eq_false hx
      have hx' : ¬(x.height > avg * 1.3 ∧ 3 ≤ (jsTrim x.str).length ∧
          (jsTrim x.str).length ≤ 100 ∧ hasAlnum (jsTrim x.str) = true ∧
          jsTrim x.str ≠ jsToUpper (jsTrim x.str)) := hx
      simp only [List.foldl_cons, List.filter_cons, hd, Bool.false_eq_true, if_false]
      rw [if_neg hx', ih]

/-- C7: when the structured outline is absent or empty, TOC discovery runs the
font-size heuristic; and within the heuristic a text item yields a heading
candidate iff all four filters of `specHeadingCandidate` hold (height above
1.3 times the page average, trimmed length in `[3, 100]`, at least one
alphanumeric character, not entirely upper-case). -/
theorem toc_fallback_filters (doc : TOCDoc)
    (hout : doc.outlineRes = .ok none ∨ doc.outlineRes = .ok (some [])) :
    extractTableOfContents doc = detectTOCFromFonts doc ∧
      ∀ avg pageNum items, scanItems avg pageNum items =
        (items.filter fun it => decide (specHeadingCandidate avg it)).map
          (fun it => { title := jsTrim it.str, pageIndex := pageNum - 1,
                       level := headingLevel it.height avg }) := by
  refine ⟨?_, fun avg pageNum items => scanItems_eq avg pageNum items⟩
  rcases hout with h | h <;>
    simp [extractTableOfContents, extractTOCBody, h, Bind.bind, Except.bind, Pure.pure,
      Except.pure]

/-- Witness for `toc_fallback_filters` at a document whose outline fetch
returns null. -/
theorem toc_fallback_filters_witness :
    extractTableOfContents ⟨.ok none, 0, fun _ => none⟩ =
        detectTOCFromFonts ⟨.ok none, 0, fun _ => none⟩ ∧
      ∀ avg pageNum items, scanItems avg pageNum items =
        (items.filter fun it => decide (specHeadingCandidate avg it)).map
          (fun it => { title := jsTrim it.str, pageIndex := pageNum - 1,
                       level := headingLevel it.height avg }) :=
  toc_fallback_filters ⟨.ok none, 0, fun _ => none⟩ (Or.inl rfl)

theorem headingLevel_cases (fontSize avg : ℚ) :
    headingLevel fontSize avg = 0 ∨ headingLevel fontSize avg = 1 ∨
      headingLevel fontSize avg = 2 := by
  unfold headingLevel
  split
  · exact Or.inl rfl
  · split
    · exact Or.inr (Or.inl rfl)
    · exact Or.inr (Or.inr rfl)

theorem mem_dedupeByPageTitle (items : List TOCItem) (a : TOCItem)
    (h : a ∈ dedupeByPageTitle items) : a ∈ items := by
  unfold dedupeByPageTitle at h
  obtain ⟨⟨i, b⟩, hmem, hb⟩ := List.mem_map.mp h
  have he := (List.mem_filter.mp hmem).1
  obtain ⟨hi, hbi⟩ := List.mem_enum he
  subst hb
  exact hbi ▸ List.getElem_mem hi

theorem mem_scanItems (avg : ℚ) (pageNum : Nat) (items : List TextItem) (a : TOCItem)
    (h : a ∈ scanItems avg pageNum items) :
    a.pageIndex = pageNum - 1 ∧ (a.level = 0 ∨ a.level = 1 ∨ a.level = 2) := by
  rw [scanItems_eq] at h
  obtain ⟨it, _, hit⟩ := List.mem_map.mp h
  subst hit
  exact ⟨rfl, headingLevel_cases it.height avg⟩

/-- C10: every entry produced by the font-size heuristic fallback has a
`pageIndex` inside the scanned prefix of the document — `0 ≤ pageIndex` and
`pageIndex < min 20 pageCount`, i.e. `pageIndex ≤ min(20, pageCount) - 1` —
and a `level` among `{0, 1, 2}`. -/
theorem fonts_entry_bounds (doc : TOCDoc) (item : TOCItem)
    (h : item ∈ detectTOCFromFonts doc) :
    item.pageIndex < min 20 doc.numPages ∧
      (item.level = 0 ∨ item.level = 1 ∨ item.level = 2) := by
  unfold detectTOCFromFonts at h
  rw [List.mem_mergeSort] at h
  have h2 := mem_dedupeByPageTitle _ _ h
  rw [List.mem_flatten] at h2
  obtain ⟨l, hl, hml⟩ := h2
  obtain ⟨i, hi, hli⟩ := List.mem_map.mp hl
  rw [List.mem_range] at hi
  subst hli
  unfold scanPage at hml
  match hpi : doc.pageItems (i + 1) with
  | none =>
    rw [hpi] at hml
    simp at hml
  | some pitems =>
    rw [hpi] at hml
    have hml' : item ∈
        (if ((pitems.map TextItem.height).filter fun size => size > 0).length = 0 then
          ([] : List TOCItem)
        else
          scanItems
            (((pitems.map TextItem.height).filter fun size => size > 0).foldl (· + ·) 0 /
              ((((pitems.map TextItem.height).filter fun size => size > 0).length : Nat) : ℚ))
            (i + 1) pitems) := hml
    by_cases hz :
        ((pitems.map TextItem.height).filter (fun size => size > 0)).length = 0
    · rw [if_pos hz] at hml'
      simp at hml'
    · rw [if_neg hz] at hml'
      obtain ⟨hpage, hlevel⟩ := mem_scanItems _ _ _ _ hml'
      refine ⟨?_, hlevel⟩
      rw [hpage]
      omega

/-- Witness for `fonts_entry_bounds`: a one-page document whose page holds
items of heights 1, 1, 10 (average 4) where the height-10 item `" Hello "`
passes all filters, producing the single entry `("Hello", 0, 0)`. -/
theorem fonts_entry_bounds_witness :
    ({ title := "Hello".toList, pageIndex := 0, level := 0 } : TOCItem).pageIndex <
        min 20 1 ∧
      (({ title := "Hello".toList, pageIndex := 0, level := 0 } : TOCItem).level = 0 ∨
        ({ title := "Hello".toList, pageIndex := 0, level := 0 } : TOCItem).level = 1 ∨
        ({ title := "Hello".toList, pageIndex := 0, level := 0 } : TOCItem).level = 2) :=
  fonts_entry_bounds
    ⟨.ok none, 1, fun _ => some [⟨1, "xx".toList⟩, ⟨1, []⟩, ⟨10, " Hello ".toList⟩]⟩
    ⟨"Hello".toList, 0, 0⟩
    (by
      have hfs : (([⟨1, "xx".toList⟩, ⟨1, []⟩, ⟨10, " Hello ".toList⟩] :
            List TextItem).map TextItem.height).filter (fun size => size > 0) =
          ([1, 1, 10] : List ℚ) := by
        decide
      have havg : ([1, 1, 10] : List ℚ).foldl (· + ·) 0 / ((([1, 1, 10] :
          List ℚ).length : Nat) : ℚ) = 4 := by
        simp only [List.foldl_cons, List.foldl_nil, List.length_cons, List.length_nil]
        norm_num
      have hd1 : decide (specHeadingCandidate 4 ⟨1, "xx".toList⟩) = false := by
        apply decide_eq_false
        intro hc
        obtain ⟨_, h2, _⟩ := hc
        have h2' : 3 ≤ (jsTrim "xx".toList).length := h2
        have hlen : (jsTrim "xx".toList).length = 2 := by decide
        omega
      have hd2 : decide (specHeadingCandidate 4 ⟨1, []⟩) = false := by
        apply decide_eq_false
        intro hc
        obtain ⟨_, h2, _⟩ := hc
        have h2' : 3 ≤ (jsTrim ([] : Str)).length := h2
        have hlen : (jsTrim ([] : Str)).length = 0 := by decide
        omega
      have hd3 : decide (specHeadingCandidate 4 ⟨10, " Hello ".toList⟩) = true := by
        apply decide_eq_true
        refine ⟨by norm_num, by decide, by decide, by decide, by decide⟩
      have hlvl : headingLevel 10 4 = 0 := by
        unfold headingLevel
        rw [if_pos (by norm_num : ((10 : ℚ) / 4 ≥ 2))]
      have hscanI : scanItems 4 1 [⟨1, "xx".toList⟩, ⟨1, []⟩, ⟨10, " Hello ".toList⟩] =
          [⟨"Hello".toList, 0, 0⟩] := by
        rw [scanItems_eq]
        simp only [List.filter_cons, List.filter_nil, hd1, hd2, hd3,
          Bool.false_eq_true, if_false, if_true, List.map_cons, List.map_nil]
        rw [hlvl]
        have hjt : jsTrim " Hello ".toList = "Hello".toList := by decide
        rw [hjt]
      have hscan : scanPage
          ⟨.ok none, 1, fun _ => some [⟨1, "xx".toList⟩, ⟨1, []⟩, ⟨10, " Hello ".toList⟩]⟩
          1 = [⟨"Hello".toList, 0, 0⟩] := by
        show (if ((([⟨1, "xx".toList⟩, ⟨1, []⟩, ⟨10, " Hello ".toList⟩] :
              List TextItem).map TextItem.height).filter fun size => size > 0).length = 0 then
            ([] : List TOCItem)
          else
            scanItems
              (((([⟨1, "xx".toList⟩, ⟨1, []⟩, ⟨10, " Hello ".toList⟩] :
                  List TextItem).map TextItem.height).filter fun size => size > 0).foldl
                  (· + ·) 0 /
                (((([⟨1, "xx".toList⟩, ⟨1, []⟩, ⟨10, " Hello ".toList⟩] :
                    List TextItem).map TextItem.height).filter fun size =>
                    size > 0).length : ℚ))
              1 [⟨1, "xx".toList⟩, ⟨1, []⟩, ⟨10, " Hello ".toList⟩]) =
          [⟨"Hello".toList, 0, 0⟩]
        rw [hfs]
        rw [if_neg (by decide)]
        rw [havg, hscanI]
      have hdetect : detectTOCFromFonts
          ⟨.ok none, 1, fun _ => some [⟨1, "xx".toList⟩, ⟨1, []⟩, ⟨10, " Hello ".toList⟩]⟩ =
          [⟨"Hello".toList, 0, 0⟩] := by
        show (dedupeByPageTitle
            ((List.map
              (fun i => scanPage
                ⟨.ok none, 1,
                  fun _ => some [⟨1, "xx".toList⟩, ⟨1, []⟩, ⟨10, " Hello ".toList⟩]⟩
                (i + 1))
              (List.range (min 20 1))).flatten)).mergeSort
            (fun a b => decide (a.pageIndex ≤ b.pageIndex)) =
          [⟨"Hello".toList, 0, 0⟩]
        have hr : List.range (min 20 (1 : Nat)) = [0] := by decide
        rw [hr]
        simp only [List.map_cons, List.map_nil, List.flatten_cons, List.flatten_nil,
          List.append_nil, Nat.zero_add]
        rw [hscan]
        have hdd : dedupeByPageTitle [⟨"Hello".toList, 0, 0⟩] = [⟨"Hello".toList, 0, 0⟩] := by
          decide
        rw [hdd]
        simp [List.mergeSort]
      rw [hdetect]
      exact List.mem_singleton.mpr rfl)

theorem percents_progress_cons (p : ℚ) (msgs : List WorkerMsg) :
    percents (.progress p :: msgs) = p :: percents msgs := by
  simp [percents, WorkerMsg.percentOf]

theorem percents_complete (acc : Str) (n : Nat) :
    percents [.complete acc n] = [] := by
  simp [percents, WorkerMsg.percentOf]

theorem percents_error (e : Str) : percents [.error e] = [] := by
  simp [percents, WorkerMsg.percentOf]

theorem extractLoop_shape : ∀ (pages : List (Except Str Str)) (k N : Nat) (acc : Str),
    ∃ body last, extractLoop pages k N acc = body ++ [last] ∧
      (∀ m ∈ body, m.isProgress = true) ∧ last.isTerminal = true
  | [], _, N, acc => ⟨[], .complete acc N, rfl, by simp, rfl⟩
  | .error e :: _, _, _, _ => ⟨[], .error e, rfl, by simp, rfl⟩
  | .ok t :: rest, k, N, acc => by
    obtain ⟨body, last, heq, hbody, hlast⟩ :=
      extractLoop_shape rest (k + 1) N (acc ++ t ++ ['\n'])
    refine ⟨.progress (((k : ℚ) + 1) / (N : ℚ) * 100) :: body, last, ?_, ?_, hlast⟩
    · show WorkerMsg.progress (((k : ℚ) + 1) / (N : ℚ) * 100) ::
        extractLoop rest (k + 1) N (acc ++ t ++ ['\n']) = _
      rw [heq, List.cons_append]
    · intro m hm
      rcases List.mem_cons.mp hm with h | h
      · subst h
        rfl
      · exact hbody m h

theorem percent_step_mono (k N : Nat) :
    ((k : ℚ) + 1) / (N : ℚ) * 100 ≤ ((k : ℚ) + 1 + 1) / (N : ℚ) * 100 := by
  rcases Nat.eq_zero_or_pos N with hN | hN
  · subst hN
    simp
  · have hN' : (0 : ℚ) < (N : ℚ) := by exact_mod_cast hN
    exact mul_le_mul_of_nonneg_right
      ((div_le_div_iff_of_pos_right hN').mpr (by linarith)) (by norm_num)

theorem extractLoop_chain : ∀ (pages : List (Except Str Str)) (k N : Nat) (acc : Str),
    List.Chain' (· ≤ ·) (percents (extractLoop pages k N acc)) ∧
      ∀ q ∈ percents (extractLoop pages k N acc), ((k : ℚ) + 1) / (N : ℚ) * 100 ≤ q
  | [], k, N, acc => by
    constructor
    · show List.Chain' _ (percents [.complete acc N])
      rw [percents_complete]
      exact List.chain'_nil
    · intro q hq
      rw [show extractLoop [] k N acc = [.complete acc N] from rfl, percents_complete] at hq
      simp at hq
  | .error e :: rest, k, N, acc => by
    constructor
    · show List.Chain' _ (percents [.error e])
      rw [percents_error]
      exact List.chain'_nil
    · intro q hq
      rw [show extractLoop (.error e :: rest) k N acc = [.error e] from rfl,
        percents_error] at hq
      simp at hq
  | .ok t :: rest, k, N, acc => by
    obtain ⟨ihc, ihb⟩ := extractLoop_chain rest (k + 1) N (acc ++ t ++ ['\n'])
    have hcast : (((k + 1 : Nat) : ℚ) + 1) = ((k : ℚ) + 1 + 1) := by push_cast; ring
    have heq : extractLoop (.ok t :: rest) k N acc =
        .progress (((k : ℚ) + 1) / (N : ℚ) * 100) ::
          extractLoop rest (k + 1) N (acc ++ t ++ ['\n']) := rfl
    constructor
    · rw [heq, percents_progress_cons]
      refine List.chain'_cons'.mpr ⟨?_, ihc⟩
      intro y hy
      have hmem := List.mem_of_mem_head? hy
      have hb := ihb y hmem
      rw [hcast] at hb
      exact le_trans (percent_step_mono k N) hb
    · intro q hq
      rw [heq, percents_progress_cons] at hq
      rcases List.mem_cons.mp hq with h | h
      · subst h
        exact le_refl _
      · have hb := ihb q h
        rw [hcast] at hb
        exact le_trans (percent_step_mono k N) hb

theorem extractLoop_percents : ∀ (pages : List (Except Str Str)) (k N : Nat) (acc : Str),
    (∀ p ∈ pages, ∃ u, p = Except.ok u) →
    percents (extractLoop pages k N acc) =
      (List.range pages.length).map (fun j => (((k + j : Nat) : ℚ) + 1) / (N : ℚ) * 100)
  | [], k, N, acc, _ => by
    rw [show extractLoop [] k N acc = [.complete acc N] from rfl, percents_complete]
    simp
  | .error e :: rest, k, N, acc, hok => by
    exfalso
    obtain ⟨u, hu⟩ := hok _ (List.mem_cons_self _ rest)
    exact absurd hu (by simp)
  | .ok t :: rest, k, N, acc, hok => by
    have ih := extractLoop_percents rest (k + 1) N (acc ++ t ++ ['\n'])
      (fun p hp => hok p (List.mem_cons_of_mem _ hp))
    have heq : extractLoop (.ok t :: rest) k N acc =
        .progress (((k : ℚ) + 1) / (N : ℚ) * 100) ::
          extractLoop rest (k + 1) N (acc ++ t ++ ['\n']) := rfl
    rw [heq, percents_progress_cons, ih, List.length_cons, List.range_succ_eq_map,
      List.map_cons, List.map_map]
    have hhead : (((k + 0 : Nat) : ℚ) + 1) / (N : ℚ) * 100 =
        ((k : ℚ) + 1) / (N : ℚ) * 100 := by
      push_cast
      ring
    rw [hhead]
    congr 1
    refine List.map_congr_left ?_
    intro j _
    show (((k + 1 + j : Nat) : ℚ) + 1) / (N : ℚ) * 100 =
      (((k + (j + 1) : Nat) : ℚ) + 1) / (N : ℚ) * 100
    push_cast
    ring

/-- C8: for every extraction job, the percent values of the emitted progress
messages form a non-decreasing sequence, every message before the last is a
progress message, the final message is terminal (completion result or error) —
so the job ends in exactly one of the two and nothing follows it — and when
loading succeeds and every page extracts, page `k` (1-based) reports
`k / pageCount * 100` in page order. -/
theorem worker_message_protocol (loadRes : Except Str (List (Except Str Str))) :
    List.Chain' (· ≤ ·) (percents (extractMessages loadRes)) ∧
      (∀ m ∈ (extractMessages loadRes).dropLast, m.isProgress = true) ∧
      (extractMessages loadRes).getLast?.any WorkerMsg.isTerminal = true ∧
      ∀ pages, loadRes = .ok pages → (∀ p ∈ pages, ∃ u, p = Except.ok u) →
        percents (extractMessages loadRes) =
          (List.range pages.length).map
            (fun k => (((k : Nat) : ℚ) + 1) / (pages.length : ℚ) * 100) := by
  match loadRes with
  | .error e =>
    refine ⟨?_, ?_, ?_, ?_⟩
    · rw [show extractMessages (.error e) = [.error e] from rfl, percents_error]
      exact List.chain'_nil
    · intro m hm
      simp [extractMessages] at hm
    · rfl
    · intro pages hpages
      exact absurd hpages (by simp)
  | .ok pages =>
    have hmsgs : extractMessages (.ok pages) = extractLoop pages 0 pages.length [] := rfl
    obtain ⟨body, last, heq, hbody, hlast⟩ := extractLoop_shape pages 0 pages.length []
    refine ⟨(extractLoop_chain pages 0 pages.length []).1, ?_, ?_, ?_⟩
    · intro m hm
      rw [hmsgs, heq, List.dropLast_concat] at hm
      exact hbody m hm
    · rw [hmsgs, heq, List.getLast?_concat]
      simpa using hlast
    · intro ps hps hok
      injection hps with h
      subst h
      rw [hmsgs, extractLoop_percents _ 0 _ [] hok]
      refine List.map_congr_left ?_
      intro j _
      push_cast
      ring

/-- Witness for `worker_message_protocol` at a two-page job whose pages both
extract successfully. -/
theorem worker_message_protocol_witness :
    percents (extractMessages (.ok [Except.ok "a".toList, Except.ok "b".toList])) =
      (List.range ([Except.ok "a".toList, Except.ok "b".toList] :
          List (Except Str Str)).length).map
        (fun k => (((k : Nat) : ℚ) + 1) /
          ((([Except.ok "a".toList, Except.ok "b".toList] :
            List (Except Str Str)).length : Nat) : ℚ) * 100) :=
  (worker_message_protocol (.ok [Except.ok "a".toList, Except.ok "b".toList])).2.2.2
    [Except.ok "a".toList, Except.ok "b".toList] rfl
    (by
      intro p hp
      rcases List.mem_cons.mp hp with h | h
      · exact ⟨"a".toList, h⟩
      · rcases List.mem_cons.mp h with h2 | h2
        · exact ⟨"b".toList, h2⟩
        · simp at h2)
